import Mathlib

/-!
Shallow embedding of the SyncDB synchronization engine
(`src/syncdb/syncer.py`, `src/syncdb/database.py`).

A database value is opaque to the engine (pass-through), so it is modelled
as `Option String` (`none` is SQL NULL).  A database is a list of tables,
each carrying its schema descriptor and its rows; a connection holds the
actual database together with the cached `MetaData` catalog snapshot that
`DatabaseConnection.get_tables` returns.  Failures of the underlying
SQLAlchemy engine (DDL failure, truncate failure, insert failure) are
modelled by an environment of failure flags keyed by table name; every
other behaviour is translated directly from the Python source.
-/

/-- A column as `_create_table` copies it: name, (opaque) type token,
primary-key flag, nullable flag, optional default. -/
structure Column where
  name : String
  type : String
  primary_key : Bool
  nullable : Bool
  default : Option String
deriving DecidableEq, Repr

/-- A table descriptor: name plus ordered columns (SQLAlchemy `Table`). -/
structure TableDesc where
  name : String
  columns : List Column
deriving DecidableEq, Repr

/-- An opaque cell value; `none` is SQL NULL. -/
abbrev Value := Option String

/-- A row, positional with respect to its table's column order. -/
abbrev Row := List Value

/-- A table as stored in an actual database: its schema and its rows. -/
structure DBTable where
  desc : TableDesc
  rows : List Row
deriving DecidableEq, Repr

/-- An actual database: the tables it stores. -/
abbrev DB := List DBTable

/-- A catalog snapshot (`MetaData.tables`): a name-keyed association list of
table descriptors, in insertion order. -/
abbrev Catalog := List (String × TableDesc)

/-- Find a table of the actual database by name (the engine resolves the
table a SQL statement addresses by name). -/
def lookupTable (db : DB) (table_name : String) : Option DBTable :=
  db.find? (fun t => t.desc.name == table_name)

/-- The full catalog of an actual database: what a from-scratch reflection
of every table would return. -/
def catalogOf (db : DB) : Catalog :=
  db.map (fun t => (t.desc.name, t.desc))

/-- `MetaData.reflect(bind=engine)`: adds to the snapshot every database
table whose name is not already a key of the snapshot; table objects
already present are kept untouched (SQLAlchemy does not re-read or drop
them). -/
def refreshMeta (meta : Catalog) (db : DB) : Catalog :=
  meta ++ (catalogOf db).filter (fun p => (meta.lookup p.1).isNone)

/-- One live `DatabaseConnection`: the actual database behind the engine
and the cached `MetaData` snapshot. -/
structure Conn where
  db : DB
  meta : Catalog
deriving DecidableEq, Repr

/-- `DatabaseConnection.get_tables`: returns the cached snapshot
(`self.metadata.tables`); the connection is modelled as established. -/
def Conn.get_tables (c : Conn) : Catalog := c.meta

/-- The two endpoints a `DatabaseSyncer` holds. -/
structure SyncState where
  source : Conn
  target : Conn
deriving DecidableEq, Repr

/-- Failure flags of the underlying engine, keyed by table name: whether
the CREATE of a table raises, whether its DELETE raises, whether its
INSERT raises. -/
structure Env where
  createFails : String → Bool
  truncateFails : String → Bool
  insertFails : String → Bool

/-- The filtering step shared by `sync_schema` and `sync_data`:
`if tables:` keeps only the named tables — a `None` filter and an empty
list (both falsy in Python) leave the catalog unfiltered. -/
def applyFilter (tables : Option (List String)) (cat : Catalog) : Catalog :=
  match tables with
  | none => cat
  | some ts => bif ts.isEmpty then cat else cat.filter (fun p => ts.contains p.1)

/-- One copied column of `_create_table`: rebuilt field for field from the
source column. -/
def copyColumn (column : Column) : Column :=
  { name := column.name
    type := column.type
    primary_key := column.primary_key
    nullable := column.nullable
    default := column.default }

/-- `MetaData.create_all(target_engine)` for a single-table metadata:
creates the table unless one of that name already exists in the actual
database (`checkfirst`). New tables start with no rows. -/
def createTableIfAbsent (db : DB) (td : TableDesc) : DB :=
  bif (lookupTable db td.name).isSome then db else db ++ [⟨td, []⟩]

/-- `DatabaseSyncer._create_table`: copy the source table's columns field
for field into a fresh definition and create it against the target engine;
`none` when the engine raises. -/
def create_table (env : Env) (source_table : TableDesc) (db : DB) : Option DB :=
  bif env.createFails source_table.name then none
  else
    let new_table : TableDesc :=
      { name := source_table.name, columns := source_table.columns.map copyColumn }
    some (createTableIfAbsent db new_table)

/-- The creation loop of `sync_schema` (lines 42-48): walk the filtered
source catalog; a table already keyed in the target snapshot is a logged
no-op; a missing one is created. The first engine failure aborts the loop,
surfacing the failing table's name; tables created before it stay created
(no rollback). -/
def createMissing (env : Env) (items : Catalog) (target_tables : Catalog)
    (db : DB) : DB × Option String :=
  match items with
  | [] => (db, none)
  | (table_name, source_table) :: rest =>
    bif (target_tables.lookup table_name).isSome then
      createMissing env rest target_tables db
    else
      match create_table env source_table db with
      | none => (db, some source_table.name)
      | some db' => createMissing env rest target_tables db'

/-- The error a failed `sync_schema` run logs: the name of the table whose
creation raised, `none` when the run succeeds. -/
def schemaError (env : Env) (s : SyncState) (tables : Option (List String)) :
    Option String :=
  (createMissing env (applyFilter tables s.source.get_tables)
    s.target.get_tables s.target.db).2

/-- `DatabaseSyncer.sync_schema`: create the missing tables, then reflect
the target metadata; an exception skips the reflection and yields `False`.
-/
def sync_schema (env : Env) (s : SyncState) (tables : Option (List String)) :
    Bool × SyncState :=
  let r := createMissing env (applyFilter tables s.source.get_tables)
    s.target.get_tables s.target.db
  match r.2 with
  | some _ => (false, { s with target := { db := r.1, meta := s.target.meta } })
  | none =>
    (true, { s with target := { db := r.1, meta := refreshMeta s.target.meta r.1 } })

/-- The per-row dictionary of `_sync_table_data` (lines 173-177): the row's
value at position `i` keyed by the source table's `i`-th column name. -/
def rowDict (columns : List Column) (row : Row) : List (String × Value) :=
  (columns.zip row).map (fun p => (p.1.name, p.2))

/-- Executing one dictionary against the target table's insert: each target
column takes the dictionary's value under its name, or its default (NULL
absent a default) when the dictionary has no such key. -/
def insertRow (target_columns : List Column) (d : List (String × Value)) : Row :=
  target_columns.map (fun c => (d.lookup c.name).getD c.default)

/-- A dictionary the target insert can consume: every key names a target
column (SQLAlchemy raises on unconsumed column names). -/
def consumable (target_columns : List Column) (d : List (String × Value)) : Bool :=
  d.all (fun kv => target_columns.any (fun c => c.name == kv.1))

/-- The single batched insert: all dictionaries executed against the target
columns, or `none` when some key is not a target column. -/
def insertRows (target_columns : List Column) (ds : List (List (String × Value))) :
    Option (List Row) :=
  bif ds.all (fun d => consumable target_columns d) then
    some (ds.map (fun d => insertRow target_columns d))
  else none

/-- `DELETE FROM t` on the actual database. -/
def clearRows (db : DB) (table_name : String) : DB :=
  db.map (fun t => bif t.desc.name == table_name then { t with rows := [] } else t)

/-- Appending the batch's rows to the named table of the actual database. -/
def appendRows (db : DB) (table_name : String) (newRows : List Row) : DB :=
  db.map (fun t =>
    bif t.desc.name == table_name then { t with rows := t.rows ++ newRows } else t)

/-- `DatabaseSyncer._sync_table_data`: optionally truncate (committed
first), read all source rows, soft-skip when there are none, else build
the dictionary batch and execute one committed insert. Any engine failure
(truncate, select, insert) aborts with the logged table name; a committed
truncation survives a later failure. -/
def sync_table_data (env : Env) (srcDb : DB) (source_table target_table : TableDesc)
    (truncate_target : Bool) (db : DB) : DB × Option String :=
  let step : Option DB :=
    bif truncate_target then
      bif env.truncateFails target_table.name ||
          (lookupTable db target_table.name).isNone then none
      else some (clearRows db target_table.name)
    else some db
  match step with
  | none => (db, some source_table.name)
  | some db1 =>
    match lookupTable srcDb source_table.name with
    | none => (db1, some source_table.name)
    | some srcT =>
      bif srcT.rows.isEmpty then (db1, none)
      else bif env.insertFails target_table.name then (db1, some source_table.name)
      else
        match insertRows target_table.columns
            (srcT.rows.map (fun r => rowDict source_table.columns r)) with
        | none => (db1, some source_table.name)
        | some newRows =>
          bif (lookupTable db1 target_table.name).isSome then
            (appendRows db1 target_table.name newRows, none)
          else (db1, some source_table.name)

/-- The per-table loop of `sync_data` (lines 81-88): a table missing from
the refreshed target snapshot is logged and skipped; otherwise its data is
synced, the first failure aborting the loop. -/
def syncDataLoop (env : Env) (srcDb : DB) (truncate_target : Bool)
    (items : Catalog) (target_tables : Catalog) (db : DB) : DB × Option String :=
  match items with
  | [] => (db, none)
  | (table_name, source_table) :: rest =>
    match target_tables.lookup table_name with
    | none => syncDataLoop env srcDb truncate_target rest target_tables db
    | some target_table =>
      match sync_table_data env srcDb source_table target_table truncate_target db with
      | (db', some e) => (db', some e)
      | (db', none) => syncDataLoop env srcDb truncate_target rest target_tables db'

/-- `DatabaseSyncer.sync_data`: reflect the target metadata, filter the
source snapshot, run the loop; `True` exactly when no table raised. The
reflection happens inside the `try` before any failure, so it persists
either way. -/
def sync_data (env : Env) (s : SyncState) (tables : Option (List String))
    (truncate_target : Bool) : Bool × SyncState :=
  let tmeta := refreshMeta s.target.meta s.target.db
  let r := syncDataLoop env s.source.db truncate_target
    (applyFilter tables s.source.get_tables) tmeta s.target.db
  (r.2.isNone, { s with target := { db := r.1, meta := tmeta } })

/-- `DatabaseSyncer.sync_all`: schema first; on failure return `False`
without touching data; otherwise return `sync_data`'s verdict. -/
def sync_all (env : Env) (s : SyncState) (tables : Option (List String))
    (truncate_target : Bool) : Bool × SyncState :=
  let r := sync_schema env s tables
  bif r.1 then sync_data env r.2 tables truncate_target else (false, r.2)

/-- Success of one table's data sync as determined by the environment and
the source database alone (given the target table exists): no truncate
failure when truncating, a readable source table, and — unless the source
is empty — a consumable, non-failing insert batch. -/
def tableOk (env : Env) (srcDb : DB) (truncate_target : Bool)
    (source_table target_table : TableDesc) : Bool :=
  (!truncate_target || !env.truncateFails target_table.name) &&
  match lookupTable srcDb source_table.name with
  | none => false
  | some srcT =>
    srcT.rows.isEmpty ||
    (!env.insertFails target_table.name &&
      (insertRows target_table.columns
        (srcT.rows.map (fun r => rowDict source_table.columns r))).isSome)

/-! ### Association-list and catalog lemmas -/

theorem lookup_append (l1 l2 : Catalog) (a : String) :
    (l1 ++ l2).lookup a = ((l1.lookup a).or (l2.lookup a)) := by
  induction l1 with
  | nil => simp [List.lookup]
  | cons p rest ih =>
    obtain ⟨k, b⟩ := p
    by_cases h : a = k
    · simp [List.lookup, h]
    · simpa [List.lookup, beq_false_of_ne h] using ih

theorem lookup_isSome_of_mem {l : Catalog} {a : String} {b : TableDesc}
    (h : (a, b) ∈ l) : (l.lookup a).isSome := by
  induction l with
  | nil => simp at h
  | cons p rest ih =>
    obtain ⟨k, c⟩ := p
    by_cases hk : a = k
    · simp [List.lookup, hk]
    · rcases List.mem_cons.1 h with h1 | h1
      · exact absurd (congrArg Prod.fst h1) hk
      · simpa [List.lookup, beq_false_of_ne hk] using ih h1

theorem lookup_mem {l : Catalog} {a : String} {b : TableDesc}
    (h : l.lookup a = some b) : (a, b) ∈ l := by
  induction l with
  | nil => simp [List.lookup] at h
  | cons p rest ih =>
    obtain ⟨k, c⟩ := p
    by_cases hk : a = k
    · simp [List.lookup, hk] at h
      simp [hk, h]
    · simp only [List.lookup_cons, beq_false_of_ne hk] at h
      exact List.mem_cons_of_mem _ (ih h)

theorem lookup_filter_of_key {l : Catalog} {pred : String × TableDesc → Bool}
    {a : String} (h : ∀ b, pred (a, b) = true) :
    (l.filter pred).lookup a = l.lookup a := by
  induction l with
  | nil => simp
  | cons p rest ih =>
    obtain ⟨k, c⟩ := p
    by_cases hk : a = k
    · subst hk
      simp [List.filter_cons, h c, List.lookup]
    · rcases hp : pred (k, c) with _ | _
      · simpa [List.filter_cons, hp, List.lookup, beq_false_of_ne hk] using ih
      · simpa [List.filter_cons, hp, List.lookup, beq_false_of_ne hk] using ih

theorem lookupTable_name {db : DB} {n : String} {t : DBTable}
    (h : lookupTable db n = some t) : t.desc.name = n := by
  have := List.find?_some h
  simpa using this

theorem lookupTable_mem {db : DB} {n : String} {t : DBTable}
    (h : lookupTable db n = some t) : t ∈ db :=
  List.mem_of_find?_eq_some h

theorem catalogOf_lookup (db : DB) (n : String) :
    (catalogOf db).lookup n = (lookupTable db n).map (fun t => t.desc) := by
  induction db with
  | nil => simp [catalogOf, lookupTable, List.lookup]
  | cons t rest ih =>
    by_cases h : t.desc.name = n
    · simp [catalogOf, lookupTable, List.lookup, List.find?_cons, h]
    · have h' : n ≠ t.desc.name := fun hc => h hc.symm
      simpa [catalogOf, lookupTable, List.lookup, List.find?_cons,
        beq_false_of_ne h', beq_false_of_ne h] using ih

theorem catalogOf_wf {db : DB} {p : String × TableDesc} (h : p ∈ catalogOf db) :
    p.2.name = p.1 := by
  simp only [catalogOf, List.mem_map] at h
  obtain ⟨t, _, rfl⟩ := h
  rfl

theorem mem_applyFilter {tables : Option (List String)} {cat : Catalog}
    {p : String × TableDesc} (h : p ∈ applyFilter tables cat) : p ∈ cat := by
  cases tables with
  | none => simpa [applyFilter] using h
  | some ts =>
    rcases hts : ts.isEmpty with _ | _
    · simp only [applyFilter, hts, cond_false] at h
      exact (List.mem_filter.1 h).1
    · simpa [applyFilter, hts] using h

/-! ### refreshMeta lemmas -/

theorem refreshMeta_lookup_left {meta : Catalog} {db : DB} {n : String}
    (h : (meta.lookup n).isSome) :
    (refreshMeta meta db).lookup n = meta.lookup n := by
  rw [refreshMeta, lookup_append]
  rcases hm : meta.lookup n with _ | b
  · rw [hm] at h; simp at h
  · rfl

theorem refreshMeta_lookup_of_none {meta : Catalog} {db : DB} {n : String}
    (h : meta.lookup n = none) :
    (refreshMeta meta db).lookup n = (catalogOf db).lookup n := by
  rw [refreshMeta, lookup_append, h]
  have : ((catalogOf db).filter (fun p => (meta.lookup p.1).isNone)).lookup n =
      (catalogOf db).lookup n :=
    lookup_filter_of_key (fun _ => by simp [h])
  simp [this]

theorem refreshMeta_isSome_of_db {meta : Catalog} {db : DB}
    {p : String × TableDesc} (h : p ∈ catalogOf db) :
    ((refreshMeta meta db).lookup p.1).isSome := by
  rcases hm : meta.lookup p.1 with _ | b
  · rw [refreshMeta_lookup_of_none hm]
    exact lookup_isSome_of_mem (a := p.1) (b := p.2) (by simpa using h)
  · rw [refreshMeta_lookup_left (by simp [hm])]
    simp [hm]

theorem refreshMeta_of_covered {meta : Catalog} {db : DB}
    (h : ∀ p ∈ catalogOf db, (meta.lookup p.1).isSome) :
    refreshMeta meta db = meta := by
  have hf : (catalogOf db).filter (fun p => (meta.lookup p.1).isNone) = [] := by
    rw [List.filter_eq_nil_iff]
    intro p hp
    have hs := h p hp
    rcases hm : meta.lookup p.1 with _ | b
    · rw [hm] at hs; simp at hs
    · simp [hm]
  simp [refreshMeta, hf]

theorem refreshMeta_consistent (db : DB) :
    refreshMeta (catalogOf db) db = catalogOf db :=
  refreshMeta_of_covered (fun p hp =>
    lookup_isSome_of_mem (a := p.1) (b := p.2) (by simpa using hp))

theorem refreshMeta_idem {meta : Catalog} (db : DB) :
    refreshMeta (refreshMeta meta db) db = refreshMeta meta db :=
  refreshMeta_of_covered (fun _ hp => refreshMeta_isSome_of_db hp)

theorem refreshMeta_wf {meta : Catalog} {db : DB}
    (hw : ∀ p ∈ meta, p.2.name = p.1) :
    ∀ p ∈ refreshMeta meta db, p.2.name = p.1 := by
  intro p hp
  rcases List.mem_append.1 hp with h | h
  · exact hw p h
  · exact catalogOf_wf (List.mem_filter.1 h).1

/-! ### Actual-database operation lemmas -/

theorem lookupTable_append (db1 db2 : DB) (n : String) :
    lookupTable (db1 ++ db2) n = (lookupTable db1 n).or (lookupTable db2 n) := by
  simp [lookupTable, List.find?_append]

theorem lookupTable_append_left {db1 : DB} (db2 : DB) {n : String}
    (h : (lookupTable db1 n).isSome) :
    lookupTable (db1 ++ db2) n = lookupTable db1 n := by
  rw [lookupTable_append]
  rcases hm : lookupTable db1 n with _ | t
  · rw [hm] at h; simp at h
  · rfl

theorem lookupTable_clearRows_self (db : DB) (n : String) :
    lookupTable (clearRows db n) n =
      (lookupTable db n).map (fun t => ⟨t.desc, []⟩) := by
  induction db with
  | nil => simp [clearRows, lookupTable]
  | cons t rest ih =>
    by_cases h : t.desc.name = n
    · simp [clearRows, lookupTable, List.find?_cons, h]
    · simpa [clearRows, lookupTable, List.find?_cons, beq_false_of_ne h] using ih

theorem lookupTable_clearRows_ne (db : DB) {m n : String} (h : m ≠ n) :
    lookupTable (clearRows db m) n = lookupTable db n := by
  induction db with
  | nil => simp [clearRows, lookupTable]
  | cons t rest ih =>
    rcases hn : t.desc.name == n with _ | _
    · rcases hm : t.desc.name == m with _ | _
      · simpa [clearRows, lookupTable, List.find?_cons, hm, hn] using ih
      · simpa [clearRows, lookupTable, List.find?_cons, hm, hn] using ih
    · have hm : (t.desc.name == m) = false := by
        have he : t.desc.name = n := by simpa using hn
        exact beq_false_of_ne (by rw [he]; exact fun hc => h hc.symm)
      simp [clearRows, lookupTable, List.find?_cons, hm, hn]

theorem lookupTable_appendRows_self (db : DB) (n : String) (rs : List Row) :
    lookupTable (appendRows db n rs) n =
      (lookupTable db n).map (fun t => ⟨t.desc, t.rows ++ rs⟩) := by
  induction db with
  | nil => simp [appendRows, lookupTable]
  | cons t rest ih =>
    by_cases h : t.desc.name = n
    · simp [appendRows, lookupTable, List.find?_cons, h]
    · simpa [appendRows, lookupTable, List.find?_cons, beq_false_of_ne h] using ih

theorem lookupTable_appendRows_ne (db : DB) {m n : String} (rs : List Row)
    (h : m ≠ n) : lookupTable (appendRows db m rs) n = lookupTable db n := by
  induction db with
  | nil => simp [appendRows, lookupTable]
  | cons t rest ih =>
    rcases hn : t.desc.name == n with _ | _
    · rcases hm : t.desc.name == m with _ | _
      · simpa [appendRows, lookupTable, List.find?_cons, hm, hn] using ih
      · simpa [appendRows, lookupTable, List.find?_cons, hm, hn] using ih
    · have hm : (t.desc.name == m) = false := by
        have he : t.desc.name = n := by simpa using hn
        exact beq_false_of_ne (by rw [he]; exact fun hc => h hc.symm)
      simp [appendRows, lookupTable, List.find?_cons, hm, hn]

theorem lookupTable_createTableIfAbsent_mono {db : DB} (td : TableDesc)
    {n : String} (h : (lookupTable db n).isSome) :
    lookupTable (createTableIfAbsent db td) n = lookupTable db n := by
  rw [createTableIfAbsent]
  rcases hp : (lookupTable db td.name).isSome with _ | _
  · simpa using lookupTable_append_left [⟨td, []⟩] h
  · simp

theorem lookupTable_createTableIfAbsent_self (db : DB) (td : TableDesc) :
    (lookupTable (createTableIfAbsent db td) td.name).isSome := by
  rw [createTableIfAbsent]
  rcases hp : (lookupTable db td.name).isSome with _ | _
  · rw [cond_false, lookupTable_append]
    rcases hm : lookupTable db td.name with _ | t
    · simp [lookupTable, List.find?_cons]
    · simp [hm] at hp
  · simpa using hp

theorem createTableIfAbsent_of_present {db : DB} {td : TableDesc}
    (h : (lookupTable db td.name).isSome) : createTableIfAbsent db td = db := by
  simp [createTableIfAbsent, h]

theorem copyColumn_eq (c : Column) : copyColumn c = c := rfl

theorem create_table_eq (env : Env) (td : TableDesc) (db : DB)
    (h : env.createFails td.name = false) :
    create_table env td db = some (createTableIfAbsent db td) := by
  have hcc : copyColumn = id := rfl
  simp only [create_table, h, cond_false, hcc, List.map_id]

/-! ### createMissing lemmas -/

theorem createMissing_mono {env : Env} {items meta : Catalog} {db db' : DB}
    {e : Option String} (h : createMissing env items meta db = (db', e))
    {n : String} (hn : (lookupTable db n).isSome) :
    lookupTable db' n = lookupTable db n := by
  induction items generalizing db with
  | nil =>
    simp [createMissing] at h
    rw [h.1]
  | cons p rest ih =>
    obtain ⟨m, u⟩ := p
    rcases hlk : (meta.lookup m).isSome with _ | _
    · simp only [createMissing, hlk, cond_false] at h
      rcases hcf : env.createFails u.name with _ | _
      · rw [create_table_eq env u db hcf] at h
        have hmono := @lookupTable_createTableIfAbsent_mono db u _ hn
        rw [ih h (by rw [hmono]; exact hn), hmono]
      · rw [create_table, hcf] at h
        simp at h
        rw [h.1]
    · simp only [createMissing, hlk, cond_true] at h
      exact ih h hn

theorem createMissing_appends {env : Env} {items meta : Catalog} {db db' : DB}
    {e : Option String} (h : createMissing env items meta db = (db', e)) :
    ∃ extra, db' = db ++ extra := by
  induction items generalizing db with
  | nil =>
    simp [createMissing] at h
    exact ⟨[], by simp [h.1]⟩
  | cons p rest ih =>
    obtain ⟨m, u⟩ := p
    rcases hlk : (meta.lookup m).isSome with _ | _
    · simp only [createMissing, hlk, cond_false] at h
      rcases hcf : env.createFails u.name with _ | _
      · rw [create_table_eq env u db hcf] at h
        obtain ⟨extra, hex⟩ := ih h
        rw [createTableIfAbsent] at hex
        rcases hp : (lookupTable db u.name).isSome with _ | _
        · rw [hp, cond_false] at hex
          exact ⟨[⟨u, []⟩] ++ extra, by simpa using hex⟩
        · rw [hp, cond_true] at hex
          exact ⟨extra, hex⟩
      · rw [create_table, hcf] at h
        simp at h
        exact ⟨[], by simp [h.1]⟩
    · simp only [createMissing, hlk, cond_true] at h
      exact ih h

theorem createMissing_skip_all {env : Env} {items meta : Catalog} (db : DB)
    (h : ∀ p ∈ items, (meta.lookup p.1).isSome) :
    createMissing env items meta db = (db, none) := by
  induction items with
  | nil => simp [createMissing]
  | cons p rest ih =>
    obtain ⟨m, u⟩ := p
    have hm : (meta.lookup m).isSome := h (m, u) (List.mem_cons_self _ _)
    simp only [createMissing, hm, cond_true]
    exact ih (fun q hq => h q (List.mem_cons_of_mem _ hq))

theorem createMissing_noop {env : Env} {items meta : Catalog} {db : DB}
    (h : ∀ p ∈ items, (meta.lookup p.1).isSome ∨
      (env.createFails p.2.name = false ∧ (lookupTable db p.2.name).isSome)) :
    createMissing env items meta db = (db, none) := by
  induction items with
  | nil => simp [createMissing]
  | cons p rest ih =>
    obtain ⟨m, u⟩ := p
    have hrest := fun q hq => h q (List.mem_cons_of_mem _ hq)
    rcases h (m, u) (List.mem_cons_self _ _) with hm | ⟨hcf, hpres⟩
    · simp only [createMissing, hm, cond_true]
      exact ih hrest
    · rcases hlk : (meta.lookup m).isSome with _ | _
      · simp only [createMissing, hlk, cond_false]
        rw [create_table_eq env u db hcf, createTableIfAbsent, hpres, cond_true]
        exact ih hrest
      · simp only [createMissing, hlk, cond_true]
        exact ih hrest

theorem createMissing_ok_elim {env : Env} {items meta : Catalog} {db db' : DB}
    (h : createMissing env items meta db = (db', none)) :
    ∀ p ∈ items, (meta.lookup p.1).isSome ∨
      (env.createFails p.2.name = false ∧ (lookupTable db' p.2.name).isSome) := by
  induction items generalizing db with
  | nil => simp
  | cons q rest ih =>
    obtain ⟨m, u⟩ := q
    intro p hp
    rcases hlk : (meta.lookup m).isSome with _ | _
    · simp only [createMissing, hlk, cond_false] at h
      rcases hcf : env.createFails u.name with _ | _
      · rw [create_table_eq env u db hcf] at h
        rcases List.mem_cons.1 hp with h1 | h1
        · subst h1
          refine Or.inr ⟨hcf, ?_⟩
          have hself := lookupTable_createTableIfAbsent_self db u
          rw [createMissing_mono h hself]
          exact hself
        · exact ih h p h1
      · rw [create_table, hcf] at h
        simp at h
    · simp only [createMissing, hlk, cond_true] at h
      rcases List.mem_cons.1 hp with h1 | h1
      · subst h1
        exact Or.inl hlk
      · exact ih h p h1

theorem createMissing_idem {env : Env} {items meta : Catalog} {db db' : DB}
    {e : Option String} (h : createMissing env items meta db = (db', e)) :
    createMissing env items meta db' = (db', e) := by
  induction items generalizing db with
  | nil =>
    simp only [createMissing, Prod.mk.injEq] at h ⊢
    exact ⟨trivial, h.2⟩
  | cons p rest ih =>
    obtain ⟨m, u⟩ := p
    rcases hlk : (meta.lookup m).isSome with _ | _
    · simp only [createMissing, hlk, cond_false] at h ⊢
      rcases hcf : env.createFails u.name with _ | _
      · rw [create_table_eq env u db hcf] at h
        rw [create_table_eq env u db' hcf]
        have hself := lookupTable_createTableIfAbsent_self db u
        have hsome : (lookupTable db' u.name).isSome := by
          rw [createMissing_mono h hself]
          exact hself
        rw [createTableIfAbsent, hsome, cond_true]
        exact ih h
      · rw [create_table, hcf] at h ⊢
        simp only [cond_true, Prod.mk.injEq] at h ⊢
        obtain ⟨h1, h2⟩ := h
        subst h1
        exact ⟨trivial, h2⟩
    · simp only [createMissing, hlk, cond_true] at h ⊢
      exact ih h

/-! ### sync_table_data lemmas -/

theorem appendRows_nil (db : DB) (n : String) : appendRows db n [] = db := by
  induction db with
  | nil => rfl
  | cons t rest ih =>
    rcases h : t.desc.name == n with _ | _
    · simp only [appendRows, List.map_cons, h, cond_false] at ih ⊢
      rw [ih]
    · simp only [appendRows, List.map_cons, h, cond_true, List.append_nil] at ih ⊢
      rw [ih]

theorem insertRows_eq_some {tc : List Column} {ds : List (List (String × Value))}
    {rs : List Row} (h : insertRows tc ds = some rs) :
    rs = ds.map (fun d => insertRow tc d) := by
  rw [insertRows] at h
  rcases hc : ds.all (fun d => consumable tc d) with _ | _
  · rw [hc] at h; simp at h
  · rw [hc] at h; simp at h; exact h.symm

theorem sync_table_data_shape (env : Env) (srcDb : DB) (st tt : TableDesc)
    (tr : Bool) (db : DB) :
    ∃ (cleared : Bool) (rs : List Row),
      (sync_table_data env srcDb st tt tr db).1 =
        appendRows (bif cleared then clearRows db tt.name else db) tt.name rs := by
  rw [sync_table_data]
  rcases tr with _ | _
  · simp only [cond_false]
    rcases hs : lookupTable srcDb st.name with _ | srcT
    · exact ⟨false, [], by simp [appendRows_nil]⟩
    · simp only []
      rcases he : srcT.rows.isEmpty with _ | _
      · simp only [cond_false]
        rcases hf : env.insertFails tt.name with _ | _
        · simp only [cond_false]
          rcases hir : insertRows tt.columns
              (srcT.rows.map (fun r => rowDict st.columns r)) with _ | newRows
          · exact ⟨false, [], by simp [appendRows_nil]⟩
          · simp only []
            rcases hp : (lookupTable db tt.name).isSome with _ | _
            · exact ⟨false, [], by simp [hp, appendRows_nil]⟩
            · exact ⟨false, newRows, by simp [hp]⟩
        · exact ⟨false, [], by simp [hf, appendRows_nil]⟩
      · exact ⟨false, [], by simp [he, appendRows_nil]⟩
  · rcases hstep : (env.truncateFails tt.name || (lookupTable db tt.name).isNone)
        with _ | _
    · simp only [cond_true, hstep, cond_false]
      rcases hs : lookupTable srcDb st.name with _ | srcT
      · exact ⟨true, [], by simp [appendRows_nil]⟩
      · simp only []
        rcases he : srcT.rows.isEmpty with _ | _
        · simp only [cond_false]
          rcases hf : env.insertFails tt.name with _ | _
          · simp only [cond_false]
            rcases hir : insertRows tt.columns
                (srcT.rows.map (fun r => rowDict st.columns r)) with _ | newRows
            · exact ⟨true, [], by simp [appendRows_nil]⟩
            · simp only []
              rcases hp : (lookupTable (clearRows db tt.name) tt.name).isSome with _ | _
              · exact ⟨true, [], by simp [hp, appendRows_nil]⟩
              · exact ⟨true, newRows, by simp [hp]⟩
          · exact ⟨true, [], by simp [hf, appendRows_nil]⟩
        · exact ⟨true, [], by simp [he, appendRows_nil]⟩
    · simp only [cond_true, hstep]
      exact ⟨false, [], by simp [appendRows_nil]⟩

theorem sync_table_data_frame {env : Env} {srcDb : DB} {st tt : TableDesc}
    {tr : Bool} {db : DB} {n : String} (h : tt.name ≠ n) :
    lookupTable (sync_table_data env srcDb st tt tr db).1 n = lookupTable db n := by
  obtain ⟨cleared, rs, hsh⟩ := sync_table_data_shape env srcDb st tt tr db
  rw [hsh, lookupTable_appendRows_ne _ _ h]
  rcases cleared with _ | _
  · rfl
  · exact lookupTable_clearRows_ne _ h

theorem sync_table_data_keys (env : Env) (srcDb : DB) (st tt : TableDesc)
    (tr : Bool) (db : DB) (n : String) :
    (lookupTable (sync_table_data env srcDb st tt tr db).1 n).isSome =
      (lookupTable db n).isSome := by
  obtain ⟨cleared, rs, hsh⟩ := sync_table_data_shape env srcDb st tt tr db
  rw [hsh]
  by_cases h : tt.name = n
  · subst h
    rw [lookupTable_appendRows_self]
    rcases cleared with _ | _
    · simp [Option.isSome_map]
    · simp only [cond_true, lookupTable_clearRows_self]
      simp [Option.isSome_map]
  · rw [lookupTable_appendRows_ne _ _ h]
    rcases cleared with _ | _
    · rfl
    · exact congrArg Option.isSome (lookupTable_clearRows_ne _ h)

theorem sync_table_data_ok_iff {env : Env} {srcDb : DB} {st tt : TableDesc}
    {tr : Bool} {db : DB} (hpres : (lookupTable db tt.name).isSome) :
    (sync_table_data env srcDb st tt tr db).2 = none ↔
      tableOk env srcDb tr st tt = true := by
  rw [sync_table_data, tableOk]
  have hclear : (lookupTable (clearRows db tt.name) tt.name).isSome := by
    rw [lookupTable_clearRows_self]
    simpa [Option.isSome_map] using hpres
  have hbody : ∀ db1 : DB, (lookupTable db1 tt.name).isSome →
      ((match lookupTable srcDb st.name with
        | none => (db1, some st.name)
        | some srcT =>
          bif srcT.rows.isEmpty then (db1, none)
          else bif env.insertFails tt.name then (db1, some st.name)
          else
            match insertRows tt.columns
                (srcT.rows.map (fun r => rowDict st.columns r)) with
            | none => (db1, some st.name)
            | some newRows =>
              bif (lookupTable db1 tt.name).isSome then
                (appendRows db1 tt.name newRows, none)
              else (db1, some st.name) : DB × Option String).2 = none ↔
        (match lookupTable srcDb st.name with
          | none => false
          | some srcT =>
            srcT.rows.isEmpty ||
            (!env.insertFails tt.name &&
              (insertRows tt.columns
                (srcT.rows.map (fun r => rowDict st.columns r))).isSome)) = true) := by
    intro db1 hp1
    rcases hs : lookupTable srcDb st.name with _ | srcT
    · simp
    · simp only []
      rcases he : srcT.rows.isEmpty with _ | _
      · simp only [cond_false, Bool.false_or]
        rcases hf : env.insertFails tt.name with _ | _
        · simp only [cond_false, Bool.not_false, Bool.true_and]
          rcases hir : insertRows tt.columns
              (srcT.rows.map (fun r => rowDict st.columns r)) with _ | newRows
          · simp
          · simp [hp1]
        · simp [hf]
      · simp [he]
  rcases tr with _ | _
  · simpa using hbody db hpres
  · rcases henv : env.truncateFails tt.name with _ | _
    · have hnn : (lookupTable db tt.name).isNone = false := by
        rcases hm : lookupTable db tt.name with _ | t
        · rw [hm] at hpres; simp at hpres
        · simp
      simpa [henv, hnn] using hbody (clearRows db tt.name) hclear
    · have : (env.truncateFails tt.name || (lookupTable db tt.name).isNone) = true := by
        simp [henv]
      simp [this, henv]

theorem sync_table_data_char {env : Env} {srcDb : DB} {st tt : TableDesc}
    {tr : Bool} {db db2 : DB}
    (h : sync_table_data env srcDb st tt tr db = (db2, none))
    {t0 : DBTable} (ht0 : lookupTable db tt.name = some t0) :
    ∃ srcT, lookupTable srcDb st.name = some srcT ∧
      lookupTable db2 tt.name = some ⟨t0.desc, (bif tr then [] else t0.rows) ++
        srcT.rows.map (fun r => insertRow tt.columns (rowDict st.columns r))⟩ := by
  rw [sync_table_data] at h
  have hbody : ∀ db1 : DB,
      lookupTable db1 tt.name = some ⟨t0.desc, bif tr then [] else t0.rows⟩ →
      ((match lookupTable srcDb st.name with
        | none => (db1, some st.name)
        | some srcT =>
          bif srcT.rows.isEmpty then (db1, none)
          else bif env.insertFails tt.name then (db1, some st.name)
          else
            match insertRows tt.columns
                (srcT.rows.map (fun r => rowDict st.columns r)) with
            | none => (db1, some st.name)
            | some newRows =>
              bif (lookupTable db1 tt.name).isSome then
                (appendRows db1 tt.name newRows, none)
              else (db1, some st.name) : DB × Option String) = (db2, none)) →
      ∃ srcT, lookupTable srcDb st.name = some srcT ∧
        lookupTable db2 tt.name = some ⟨t0.desc, (bif tr then [] else t0.rows) ++
          srcT.rows.map (fun r => insertRow tt.columns (rowDict st.columns r))⟩ := by
    intro db1 hp1 hm
    rcases hs : lookupTable srcDb st.name with _ | srcT
    · rw [hs] at hm; simp at hm
    · rw [hs] at hm
      simp only [] at hm
      rcases he : srcT.rows.isEmpty with _ | _
      · rw [he, cond_false] at hm
        rcases hf : env.insertFails tt.name with _ | _
        · rw [hf, cond_false] at hm
          rcases hir : insertRows tt.columns
              (srcT.rows.map (fun r => rowDict st.columns r)) with _ | newRows
          · rw [hir] at hm; simp at hm
          · rw [hir] at hm
            simp only [hp1, Option.isSome_some, cond_true, Prod.mk.injEq] at hm
            refine ⟨srcT, rfl, ?_⟩
            rw [← hm.1, lookupTable_appendRows_self, hp1]
            have hnr : newRows =
                srcT.rows.map (fun r => insertRow tt.columns (rowDict st.columns r)) := by
              rw [insertRows_eq_some hir, List.map_map]
              rfl
            simp [hnr]
        · rw [hf, cond_true] at hm; simp at hm
      · rw [he, cond_true, Prod.mk.injEq] at hm
        have hnil : srcT.rows = [] := List.isEmpty_iff.1 he
        refine ⟨srcT, rfl, ?_⟩
        rw [← hm.1, hp1, hnil]
        simp
  rcases tr with _ | _
  · rw [cond_false] at h ⊢
    exact hbody db (by rw [ht0]; rfl) h
  · rcases henv : (env.truncateFails tt.name || (lookupTable db tt.name).isNone)
        with _ | _
    · rw [cond_true, henv, cond_false] at h
      rw [cond_true] at *
      refine hbody (clearRows db tt.name) ?_ h
      rw [lookupTable_clearRows_self, ht0]
      rfl
    · rw [cond_true, henv, cond_true] at h
      simp at h

/-! ### syncDataLoop lemmas -/

theorem lookup_wf_name {tmeta : Catalog} {m : String} {tt : TableDesc}
    (hw : ∀ p ∈ tmeta, p.2.name = p.1) (h : tmeta.lookup m = some tt) :
    tt.name = m :=
  hw (m, tt) (lookup_mem h)

theorem syncDataLoop_keys (env : Env) (srcDb : DB) (tr : Bool) (items tmeta : Catalog)
    (db : DB) (n : String) :
    (lookupTable (syncDataLoop env srcDb tr items tmeta db).1 n).isSome =
      (lookupTable db n).isSome := by
  induction items generalizing db with
  | nil => rfl
  | cons p rest ih =>
    obtain ⟨m, u⟩ := p
    rcases hlk : tmeta.lookup m with _ | tt
    · simp only [syncDataLoop, hlk]
      exact ih db
    · simp only [syncDataLoop, hlk]
      rcases hstep : sync_table_data env srcDb u tt tr db with ⟨db2, e⟩
      have hk : (lookupTable db2 n).isSome = (lookupTable db n).isSome := by
        have := sync_table_data_keys env srcDb u tt tr db n
        rw [hstep] at this
        exact this
      rcases e with _ | err
      · rw [ih db2, hk]
      · simpa using hk

theorem syncDataLoop_frame {env : Env} {srcDb : DB} {tr : Bool}
    {items tmeta : Catalog} {db : DB} {n : String}
    (hw : ∀ p ∈ tmeta, p.2.name = p.1) (hni : ∀ p ∈ items, p.1 ≠ n) :
    lookupTable (syncDataLoop env srcDb tr items tmeta db).1 n = lookupTable db n := by
  induction items generalizing db with
  | nil => rfl
  | cons p rest ih =>
    obtain ⟨m, u⟩ := p
    have hmn : m ≠ n := hni (m, u) (List.mem_cons_self _ _)
    have hrest : ∀ p ∈ rest, p.1 ≠ n := fun q hq => hni q (List.mem_cons_of_mem _ hq)
    rcases hlk : tmeta.lookup m with _ | tt
    · simp only [syncDataLoop, hlk]
      exact ih hrest
    · simp only [syncDataLoop, hlk]
      have httn : tt.name ≠ n := by
        rw [lookup_wf_name hw hlk]
        exact hmn
      rcases hstep : sync_table_data env srcDb u tt tr db with ⟨db2, e⟩
      have hfr : lookupTable db2 n = lookupTable db n := by
        have := @sync_table_data_frame env srcDb u tt tr db n httn
        rw [hstep] at this
        exact this
      rcases e with _ | err
      · rw [ih hrest, hfr]
      · simpa using hfr

theorem syncDataLoop_ok_iff {env : Env} {srcDb : DB} {tr : Bool}
    {items tmeta : Catalog} {db : DB}
    (hw : ∀ p ∈ tmeta, p.2.name = p.1)
    (hkeys : ∀ n, (tmeta.lookup n).isSome → (lookupTable db n).isSome) :
    (syncDataLoop env srcDb tr items tmeta db).2 = none ↔
      ∀ p ∈ items, ∀ tt, tmeta.lookup p.1 = some tt →
        tableOk env srcDb tr p.2 tt = true := by
  induction items generalizing db with
  | nil => simp [syncDataLoop]
  | cons p rest ih =>
    obtain ⟨m, u⟩ := p
    rcases hlk : tmeta.lookup m with _ | tt
    · simp only [syncDataLoop, hlk]
      rw [ih hkeys]
      constructor
      · intro hall q hq
        rcases List.mem_cons.1 hq with h1 | h1
        · intro tt' htt'
          rw [h1] at htt'
          simp only at htt'
          rw [hlk] at htt'
          exact absurd htt' (by simp)
        · exact hall q h1
      · intro hall q hq
        exact hall q (List.mem_cons_of_mem _ hq)
    · simp only [syncDataLoop, hlk]
      have httm : tt.name = m := lookup_wf_name hw hlk
      have hpres : (lookupTable db tt.name).isSome := by
        rw [httm]
        exact hkeys m (by simp [hlk])
      rcases hstep : sync_table_data env srcDb u tt tr db with ⟨db2, e⟩
      have hiff : e = none ↔ tableOk env srcDb tr u tt = true := by
        have := @sync_table_data_ok_iff env srcDb u tt tr db hpres
        rw [hstep] at this
        exact this
      rcases e with _ | err
      · have hok : tableOk env srcDb tr u tt = true := hiff.1 rfl
        have hkeys2 : ∀ n, (tmeta.lookup n).isSome → (lookupTable db2 n).isSome := by
          intro n hn
          have := sync_table_data_keys env srcDb u tt tr db n
          rw [hstep] at this
          rw [this]
          exact hkeys n hn
        simp only []
        rw [ih hkeys2]
        constructor
        · intro hall q hq
          rcases List.mem_cons.1 hq with h1 | h1
          · subst h1
            intro tt' htt'
            simp only at htt'
            rw [hlk] at htt'
            cases Option.some.inj htt'
            exact hok
          · exact hall q h1
        · intro hall q hq
          exact hall q (List.mem_cons_of_mem _ hq)
      · simp only []
        constructor
        · intro hc
          exact absurd hc (by simp)
        · intro hall
          have := hall (m, u) (List.mem_cons_self _ _) tt hlk
          exact absurd (hiff.2 this) (by simp)

theorem syncDataLoop_char {env : Env} {srcDb : DB} {tr : Bool} {tmeta : Catalog}
    {name : String} {st tt : TableDesc}
    (hw : ∀ p ∈ tmeta, p.2.name = p.1) (hlk : tmeta.lookup name = some tt) :
    ∀ {items : Catalog} {db db' : DB} {t0 : DBTable},
      (items.map Prod.fst).Nodup → (name, st) ∈ items →
      syncDataLoop env srcDb tr items tmeta db = (db', none) →
      lookupTable db name = some t0 →
      ∃ srcT, lookupTable srcDb st.name = some srcT ∧
        lookupTable db' name = some ⟨t0.desc, (bif tr then [] else t0.rows) ++
          srcT.rows.map (fun r => insertRow tt.columns (rowDict st.columns r))⟩ := by
  intro items
  induction items with
  | nil =>
    intro db db' t0 _ hmem _ _
    simp at hmem
  | cons p rest ih =>
    intro db db' t0 hnd hmem hloop ht0
    obtain ⟨m, u⟩ := p
    simp only [List.map_cons, List.nodup_cons] at hnd
    obtain ⟨hm1, hm2⟩ := hnd
    have httname : tt.name = name := lookup_wf_name hw hlk
    rcases List.mem_cons.1 hmem with h1 | h1
    · have e1 : name = m := congrArg Prod.fst h1
      have e2 : st = u := congrArg Prod.snd h1
      subst e1
      subst e2
      simp only [syncDataLoop, hlk] at hloop
      rcases hstep : sync_table_data env srcDb st tt tr db with ⟨db2, e⟩
      rw [hstep] at hloop
      rcases e with _ | err
      · have hloop2 : syncDataLoop env srcDb tr rest tmeta db2 = (db', none) := hloop
        have ht0' : lookupTable db tt.name = some t0 := by
          rw [httname]; exact ht0
        obtain ⟨srcT, hsrc, hchar⟩ := sync_table_data_char hstep ht0'
        rw [httname] at hchar
        have hni : ∀ q ∈ rest, q.1 ≠ name := by
          intro q hq hc
          exact hm1 (hc ▸ List.mem_map_of_mem Prod.fst hq)
        have hfr : lookupTable db' name = lookupTable db2 name := by
          have h3 := @syncDataLoop_frame env srcDb tr rest tmeta db2 name hw hni
          rw [hloop2] at h3
          exact h3
        exact ⟨srcT, hsrc, by rw [hfr, hchar]⟩
      · simp at hloop
    · have hmn : ¬(m = name) := by
        intro hc
        exact hm1 (hc ▸ List.mem_map_of_mem Prod.fst h1)
      rcases hlkm : tmeta.lookup m with _ | tt'
      · simp only [syncDataLoop, hlkm] at hloop
        exact ih hm2 h1 hloop ht0
      · simp only [syncDataLoop, hlkm] at hloop
        rcases hstep : sync_table_data env srcDb u tt' tr db with ⟨db2, e⟩
        rw [hstep] at hloop
        rcases e with _ | err
        · have hloop2 : syncDataLoop env srcDb tr rest tmeta db2 = (db', none) := hloop
          have htt' : tt'.name ≠ name := by
            rw [lookup_wf_name hw hlkm]
            exact hmn
          have hfr : lookupTable db2 name = some t0 := by
            have h3 := @sync_table_data_frame env srcDb u tt' tr db name htt'
            rw [hstep] at h3
            rw [ht0] at h3
            exact h3
          exact ih hm2 h1 hloop2 hfr
        · simp at hloop

/-! ### Row-addressing lemmas -/

theorem rowDict_lookup {cols : List Column} {r : Row}
    (hlen : r.length = cols.length) (hnd : (cols.map Column.name).Nodup) :
    ∀ {i : Nat} {ci : Column}, cols[i]? = some ci →
      (rowDict cols r).lookup ci.name = r[i]? := by
  induction cols generalizing r with
  | nil => intro i ci h; simp at h
  | cons c cs ihc =>
    intro i ci h
    rcases r with _ | ⟨v, vs⟩
    · simp at hlen
    · simp only [List.map_cons, List.nodup_cons] at hnd
      obtain ⟨hc1, hc2⟩ := hnd
      rcases i with _ | j
      · simp only [List.getElem?_cons_zero, Option.some.injEq] at h
        subst h
        simp [rowDict, List.lookup]
      · simp only [List.getElem?_cons_succ] at h
        have hci : ci.name ∈ cs.map Column.name := by
          have : ci ∈ cs := List.getElem?_mem h
          exact List.mem_map_of_mem Column.name this
        have hne : ci.name ≠ c.name := fun hc => hc1 (hc ▸ hci)
        have hlen' : vs.length = cs.length := by simpa using hlen
        simp only [rowDict, List.zip_cons_cons, List.map_cons, List.lookup,
          beq_false_of_ne hne]
        simpa [rowDict] using ihc hlen' hc2 h

theorem insertRow_addressed {scols tcols : List Column} {r : Row}
    (hlen : r.length = scols.length) (hnd : (scols.map Column.name).Nodup)
    {i k : Nat} {ci ck : Column} (hi : scols[i]? = some ci)
    (hk : tcols[k]? = some ck) (hname : ck.name = ci.name) :
    (insertRow tcols (rowDict scols r))[k]? = r[i]? := by
  have hlt : i < scols.length := (List.getElem?_eq_some.1 hi).1
  have hv : ∃ v, r[i]? = some v := by
    rcases hr : r[i]? with _ | v
    · rw [List.getElem?_eq_none_iff, hlen] at hr
      exact absurd hlt (by omega)
    · exact ⟨v, rfl⟩
  obtain ⟨v, hvr⟩ := hv
  rw [insertRow, List.getElem?_map, hk]
  show some (((rowDict scols r).lookup ck.name).getD ck.default) = r[i]?
  rw [hname, rowDict_lookup hlen hnd hi, hvr]
  rfl

/-! ### Bridge lemmas for the public operations -/

theorem lookupTable_createTableIfAbsent_ne {db : DB} {td : TableDesc} {n : String}
    (h : td.name ≠ n) :
    lookupTable (createTableIfAbsent db td) n = lookupTable db n := by
  rw [createTableIfAbsent]
  rcases hp : (lookupTable db td.name).isSome with _ | _
  · rw [cond_false, lookupTable_append]
    have : lookupTable [(⟨td, []⟩ : DBTable)] n = none := by
      simp [lookupTable, List.find?_cons, beq_false_of_ne h]
    rw [this, Option.or_none]
  · rw [cond_true]

theorem createMissing_ok_of {env : Env} {meta : Catalog} :
    ∀ {items : Catalog} {db : DB},
      (∀ p ∈ items, (meta.lookup p.1).isNone → env.createFails p.2.name = false) →
      (createMissing env items meta db).2 = none := by
  intro items
  induction items with
  | nil => intro db _; rfl
  | cons p rest ih =>
    intro db h
    obtain ⟨m, u⟩ := p
    have hrest := fun q hq => h q (List.mem_cons_of_mem _ hq)
    rcases hlk : (meta.lookup m).isSome with _ | _
    · have hnone : (meta.lookup m).isNone := by
        rcases hx : meta.lookup m with _ | b
        · rfl
        · rw [hx] at hlk; simp at hlk
      have hcf : env.createFails u.name = false :=
        h (m, u) (List.mem_cons_self _ _) hnone
      simp only [createMissing, hlk, cond_false]
      rw [create_table_eq env u db hcf]
      exact ih hrest
    · simp only [createMissing, hlk, cond_true]
      exact ih hrest

theorem createMissing_creates {env : Env} {meta : Catalog} {name : String}
    {td : TableDesc} :
    ∀ {items : Catalog} {db db1 : DB},
      (∀ p ∈ items, p.2.name = p.1) → (items.map Prod.fst).Nodup →
      (name, td) ∈ items → meta.lookup name = none → lookupTable db name = none →
      createMissing env items meta db = (db1, none) →
      lookupTable db1 name = some ⟨td, []⟩ := by
  intro items
  induction items with
  | nil => intro db db1 _ _ hmem _ _ _; simp at hmem
  | cons p rest ih =>
    intro db db1 hwf hnd hmem habs habsdb hcm
    obtain ⟨m, u⟩ := p
    simp only [List.map_cons, List.nodup_cons] at hnd
    obtain ⟨hm1, hm2⟩ := hnd
    have hun : u.name = m := hwf (m, u) (List.mem_cons_self _ _)
    have hwfrest := fun q hq => hwf q (List.mem_cons_of_mem _ hq)
    rcases List.mem_cons.1 hmem with h1 | h1
    · have e1 : name = m := congrArg Prod.fst h1
      have e2 : td = u := congrArg Prod.snd h1
      subst e1
      subst e2
      have hlkf : (meta.lookup name).isSome = false := by rw [habs]; rfl
      simp only [createMissing, hlkf, cond_false] at hcm
      rcases hcf : env.createFails td.name with _ | _
      · rw [create_table_eq env td db hcf] at hcm
        have habsdb' : (lookupTable db td.name).isSome = false := by
          rw [hun, habsdb]; rfl
        have hcreate : lookupTable (createTableIfAbsent db td) name = some ⟨td, []⟩ := by
          rw [createTableIfAbsent, habsdb', cond_false, lookupTable_append, habsdb]
          simp [lookupTable, List.find?_cons, hun]
        rw [createMissing_mono hcm (by rw [hcreate]; rfl), hcreate]
      · rw [create_table, hcf] at hcm
        simp at hcm
    · have hmn : ¬(m = name) := by
        intro hc
        exact hm1 (hc ▸ List.mem_map_of_mem Prod.fst h1)
      rcases hlk : (meta.lookup m).isSome with _ | _
      · simp only [createMissing, hlk, cond_false] at hcm
        rcases hcf : env.createFails u.name with _ | _
        · rw [create_table_eq env u db hcf] at hcm
          have habsdb2 : lookupTable (createTableIfAbsent db u) name = none := by
            rw [lookupTable_createTableIfAbsent_ne (by rw [hun]; exact hmn), habsdb]
          exact ih hwfrest hm2 h1 habs habsdb2 hcm
        · rw [create_table, hcf] at hcm
          simp at hcm
      · simp only [createMissing, hlk, cond_true] at hcm
        exact ih hwfrest hm2 h1 habs habsdb hcm

theorem createMissing_fails_of {env : Env} {meta : Catalog} :
    ∀ {items : Catalog} {db : DB},
      (∃ p ∈ items, meta.lookup p.1 = none ∧ env.createFails p.2.name = true) →
      ∃ q u, (q, u) ∈ items ∧ meta.lookup q = none ∧
        env.createFails u.name = true ∧
        (createMissing env items meta db).2 = some u.name := by
  intro items
  induction items with
  | nil => intro db h; simp at h
  | cons p rest ih =>
    intro db h
    obtain ⟨m, u⟩ := p
    rcases hlk : (meta.lookup m).isSome with _ | _
    · have hnone : meta.lookup m = none := by
        rcases hx : meta.lookup m with _ | b
        · rfl
        · rw [hx] at hlk; simp at hlk
      rcases hcf : env.createFails u.name with _ | _
      · obtain ⟨p0, hp0, hp1, hp2⟩ := h
        have hp0' : p0 ∈ rest := by
          rcases List.mem_cons.1 hp0 with h1 | h1
          · exfalso
            have e2 : p0.2 = u := congrArg Prod.snd h1
            rw [e2] at hp2
            rw [hp2] at hcf
            simp at hcf
          · exact h1
        obtain ⟨q, w, hq1, hq2, hq3, hq4⟩ := ih ⟨p0, hp0', hp1, hp2⟩
        refine ⟨q, w, List.mem_cons_of_mem _ hq1, hq2, hq3, ?_⟩
        simp only [createMissing, hlk, cond_false]
        rw [create_table_eq env u db hcf]
        exact hq4
      · refine ⟨m, u, List.mem_cons_self _ _, hnone, hcf, ?_⟩
        simp only [createMissing, hlk, cond_false]
        rw [create_table, hcf]
        rfl
    · obtain ⟨p0, hp0, hp1, hp2⟩ := h
      have hp0' : p0 ∈ rest := by
        rcases List.mem_cons.1 hp0 with h1 | h1
        · exfalso
          have e1 : p0.1 = m := congrArg Prod.fst h1
          rw [e1] at hp1
          rw [hp1] at hlk
          simp at hlk
        · exact h1
      obtain ⟨q, w, hq1, hq2, hq3, hq4⟩ := ih ⟨p0, hp0', hp1, hp2⟩
      refine ⟨q, w, List.mem_cons_of_mem _ hq1, hq2, hq3, ?_⟩
      simp only [createMissing, hlk, cond_true]
      exact hq4

theorem sync_schema_run_some {env : Env} {s : SyncState}
    {tables : Option (List String)} {db1 : DB} {err : String}
    (hcm : createMissing env (applyFilter tables s.source.meta) s.target.meta
      s.target.db = (db1, some err)) :
    sync_schema env s tables =
      (false, { s with target := { db := db1, meta := s.target.meta } }) := by
  have : (createMissing env (applyFilter tables s.source.meta) s.target.meta
      s.target.db).2 = some err := by rw [hcm]
  simp only [sync_schema, Conn.get_tables, this]
  have h1 : (createMissing env (applyFilter tables s.source.meta) s.target.meta
      s.target.db).1 = db1 := by rw [hcm]
  rw [h1]

theorem sync_schema_run_none {env : Env} {s : SyncState}
    {tables : Option (List String)} {db1 : DB}
    (hcm : createMissing env (applyFilter tables s.source.meta) s.target.meta
      s.target.db = (db1, none)) :
    sync_schema env s tables =
      (true, { s with target := { db := db1, meta := refreshMeta s.target.meta db1 } }) := by
  have : (createMissing env (applyFilter tables s.source.meta) s.target.meta
      s.target.db).2 = none := by rw [hcm]
  simp only [sync_schema, Conn.get_tables, this]
  have h1 : (createMissing env (applyFilter tables s.source.meta) s.target.meta
      s.target.db).1 = db1 := by rw [hcm]
  rw [h1]

theorem sync_data_ok_iff_aux {env : Env} {s : SyncState}
    {tables : Option (List String)} {tr : Bool}
    (hcons : s.target.meta = catalogOf s.target.db) :
    (sync_data env s tables tr).1 = true ↔
      ∀ p ∈ applyFilter tables s.source.meta, ∀ tt,
        (catalogOf s.target.db).lookup p.1 = some tt →
        tableOk env s.source.db tr p.2 tt = true := by
  have htmeta : refreshMeta s.target.meta s.target.db = catalogOf s.target.db := by
    rw [hcons]
    exact refreshMeta_consistent _
  have hw : ∀ p ∈ refreshMeta s.target.meta s.target.db, p.2.name = p.1 := by
    rw [htmeta]
    exact fun p hp => catalogOf_wf hp
  have hkeys : ∀ n, ((refreshMeta s.target.meta s.target.db).lookup n).isSome →
      (lookupTable s.target.db n).isSome := by
    intro n hn
    rw [htmeta, catalogOf_lookup] at hn
    rcases hx : lookupTable s.target.db n with _ | t
    · rw [hx] at hn; simp at hn
    · rfl
  have h1 : (sync_data env s tables tr).1 =
      ((syncDataLoop env s.source.db tr (applyFilter tables s.source.meta)
        (refreshMeta s.target.meta s.target.db) s.target.db).2).isNone := rfl
  rw [h1, Option.isNone_iff_eq_none,
    @syncDataLoop_ok_iff env s.source.db tr (applyFilter tables s.source.meta)
      (refreshMeta s.target.meta s.target.db) s.target.db hw hkeys,
    htmeta]

theorem sync_data_char {env : Env} {s : SyncState} {tables : Option (List String)}
    {tr : Bool} {name : String} {st : TableDesc} {t0 : DBTable}
    (hcons : s.target.meta = catalogOf s.target.db)
    (hnd : ((applyFilter tables s.source.meta).map Prod.fst).Nodup)
    (hmem : (name, st) ∈ applyFilter tables s.source.meta)
    (ht0 : lookupTable s.target.db name = some t0)
    (hres : (sync_data env s tables tr).1 = true) :
    ∃ srcT, lookupTable s.source.db st.name = some srcT ∧
      lookupTable ((sync_data env s tables tr).2).target.db name =
        some ⟨t0.desc, (bif tr then [] else t0.rows) ++ srcT.rows.map
          (fun r => insertRow t0.desc.columns (rowDict st.columns r))⟩ := by
  have htmeta : refreshMeta s.target.meta s.target.db = catalogOf s.target.db := by
    rw [hcons]
    exact refreshMeta_consistent _
  have hw : ∀ p ∈ refreshMeta s.target.meta s.target.db, p.2.name = p.1 := by
    rw [htmeta]
    exact fun p hp => catalogOf_wf hp
  have hlk : (refreshMeta s.target.meta s.target.db).lookup name = some t0.desc := by
    rw [htmeta, catalogOf_lookup, ht0]
    rfl
  rcases hloop : syncDataLoop env s.source.db tr (applyFilter tables s.source.meta)
      (refreshMeta s.target.meta s.target.db) s.target.db with ⟨db', e⟩
  have hres2 : ((syncDataLoop env s.source.db tr (applyFilter tables s.source.meta)
      (refreshMeta s.target.meta s.target.db) s.target.db).2).isNone = true := hres
  rw [hloop] at hres2
  have he : e = none := by
    rcases e with _ | err
    · rfl
    · simp at hres2
  subst he
  have hchar := syncDataLoop_char hw hlk hnd hmem hloop ht0
  obtain ⟨srcT, hsrc, hfinal⟩ := hchar
  refine ⟨srcT, hsrc, ?_⟩
  have hdb : ((sync_data env s tables tr).2).target.db = db' := by
    show (syncDataLoop env s.source.db tr (applyFilter tables s.source.meta)
      (refreshMeta s.target.meta s.target.db) s.target.db).1 = db'
    rw [hloop]
  rw [hdb]
  exact hfinal

/-! ### Concrete fixtures for witnesses and counterexamples -/

/-- An environment in which no engine operation fails. -/
def envOK : Env := ⟨fun _ => false, fun _ => false, fun _ => false⟩

/-- An environment in which only creating table `v` fails. -/
def envCF : Env := ⟨fun n => n == "v", fun _ => false, fun _ => false⟩

def colA : Column :=
  { name := "a", type := "TEXT", primary_key := true, nullable := false, default := none }

def tdT : TableDesc := { name := "t", columns := [colA] }

def tdU : TableDesc := { name := "u", columns := [colA] }

def tdV : TableDesc := { name := "v", columns := [colA] }

/-- Source: `t` with one row, `u` empty, `v` with one row. -/
def srcDbW : DB := [⟨tdT, [[some "1"]]⟩, ⟨tdU, []⟩, ⟨tdV, [[some "2"]]⟩]

/-- Target: `t` pre-populated with one unrelated row, `u` empty, no `v`. -/
def tgtDbW : DB := [⟨tdT, [[some "9"]]⟩, ⟨tdU, []⟩]

/-- A consistent two-endpoint state over the fixtures. -/
def sW : SyncState := ⟨⟨srcDbW, catalogOf srcDbW⟩, ⟨tgtDbW, catalogOf tgtDbW⟩⟩

/-- A target whose snapshot holds a table the database no longer has. -/
def sGhost : SyncState := ⟨⟨[], []⟩, ⟨[], [("ghost", ⟨"ghost", []⟩)]⟩⟩

/-! ### The claims -/

/-- C1: `sync_all` runs `sync_schema` first; if that reports failure it
returns `false` without invoking `sync_data`; otherwise it returns exactly
the result of `sync_data` on the schema-synced state, with the same table
filter and truncate flag. -/
theorem claim_sync_all_orchestration (env : Env) (s : SyncState)
    (tables : Option (List String)) (truncate_target : Bool) :
    sync_all env s tables truncate_target =
      (bif (sync_schema env s tables).1 then
        sync_data env (sync_schema env s tables).2 tables truncate_target
      else (false, (sync_schema env s tables).2)) := rfl

/-- C9: an empty table filter behaves exactly like no filter at all for
`sync_schema`, `sync_data` and `sync_all`: every source table is processed
rather than none. -/
theorem claim_empty_filter_unfiltered (env : Env) (s : SyncState)
    (truncate_target : Bool) :
    sync_schema env s (some []) = sync_schema env s none ∧
    sync_data env s (some []) truncate_target = sync_data env s none truncate_target ∧
    sync_all env s (some []) truncate_target = sync_all env s none truncate_target :=
  ⟨rfl, rfl, rfl⟩

/-- C10: no sync operation modifies the source endpoint: after
`sync_schema`, `sync_data` or `sync_all` the source connection — its actual
database (schema and rows) and its snapshot — is exactly what it was. -/
theorem claim_source_never_modified (env : Env) (s : SyncState)
    (tables : Option (List String)) (truncate_target : Bool) :
    ((sync_schema env s tables).2).source = s.source ∧
    ((sync_data env s tables truncate_target).2).source = s.source ∧
    ((sync_all env s tables truncate_target).2).source = s.source := by
  have hschema : ∀ s' : SyncState, ((sync_schema env s' tables).2).source = s'.source := by
    intro s'
    rcases hcm : createMissing env (applyFilter tables s'.source.meta) s'.target.meta
        s'.target.db with ⟨db1, e⟩
    rcases e with _ | err
    · rw [sync_schema_run_none hcm]
    · rw [sync_schema_run_some hcm]
  have hdata : ∀ s' : SyncState,
      ((sync_data env s' tables truncate_target).2).source = s'.source := fun _ => rfl
  refine ⟨hschema s, hdata s, ?_⟩
  have hall : sync_all env s tables truncate_target =
      (bif (sync_schema env s tables).1 then
        sync_data env (sync_schema env s tables).2 tables truncate_target
      else (false, (sync_schema env s tables).2)) := rfl
  rw [hall]
  rcases hb : (sync_schema env s tables).1 with _ | _
  · rw [cond_false]
    exact hschema s
  · rw [cond_true, hdata ((sync_schema env s tables).2)]
    exact hschema s

/-- C3: `sync_schema` performs no operation on tables already present in the
target — the target database only ever grows by appended new tables, never
altering an existing one, and when every selected table already exists the
run reports success (no comparison, no error) — and a second run with the
same arguments returns the same verdict and leaves the state exactly as
after the first run. -/
theorem claim_schema_existing_untouched_idempotent (env : Env) (s : SyncState)
    (tables : Option (List String)) :
    (∃ extra, ((sync_schema env s tables).2).target.db = s.target.db ++ extra) ∧
    ((∀ p ∈ applyFilter tables s.source.meta,
      (s.target.meta.lookup p.1).isSome) → (sync_schema env s tables).1 = true) ∧
    sync_schema env ((sync_schema env s tables).2) tables =
      sync_schema env s tables := by
  have hmiddle : (∀ p ∈ applyFilter tables s.source.meta,
      (s.target.meta.lookup p.1).isSome) → (sync_schema env s tables).1 = true := by
    intro hall
    have hcm0 := @createMissing_skip_all env (applyFilter tables s.source.meta) s.target.meta s.target.db hall
    rw [sync_schema_run_none hcm0]
  rcases hcm : createMissing env (applyFilter tables s.source.meta) s.target.meta
      s.target.db with ⟨db1, e⟩
  rcases e with _ | err
  · have h1 := sync_schema_run_none hcm
    refine ⟨?_, hmiddle, ?_⟩
    · obtain ⟨extra, hex⟩ := createMissing_appends hcm
      refine ⟨extra, ?_⟩
      rw [h1]
      exact hex
    · rw [h1]
      have hpre : ∀ p ∈ applyFilter tables s.source.meta,
          ((refreshMeta s.target.meta db1).lookup p.1).isSome ∨
          (env.createFails p.2.name = false ∧ (lookupTable db1 p.2.name).isSome) := by
        intro p hp
        rcases createMissing_ok_elim hcm p hp with hm | hcf
        · exact Or.inl (by rw [refreshMeta_lookup_left hm]; exact hm)
        · exact Or.inr hcf
      have hcm2 : createMissing env (applyFilter tables s.source.meta)
          (refreshMeta s.target.meta db1) db1 = (db1, none) := createMissing_noop hpre
      have h2 := sync_schema_run_none
        (s := { s with target := { db := db1, meta := refreshMeta s.target.meta db1 } })
        hcm2
      refine h2.trans ?_
      show (true, (⟨s.source, ⟨db1, refreshMeta (refreshMeta s.target.meta db1) db1⟩⟩ : SyncState)) = _
      rw [refreshMeta_idem]
  · have h1 := sync_schema_run_some hcm
    refine ⟨?_, hmiddle, ?_⟩
    · obtain ⟨extra, hex⟩ := createMissing_appends hcm
      refine ⟨extra, ?_⟩
      rw [h1]
      exact hex
    · rw [h1]
      have hcm2 : createMissing env (applyFilter tables s.source.meta) s.target.meta
          db1 = (db1, some err) := createMissing_idem hcm
      have h2 := sync_schema_run_some
        (s := { s with target := { db := db1, meta := s.target.meta } })
        hcm2
      exact h2.trans rfl

/-- C2: every filtered source table absent from the target snapshot is
created in the target with its columns copied field for field (same names,
order, types, nullable flags, primary-key flags and defaults), and after
the run the refreshed target catalog maps that table to exactly the source
descriptor. -/
theorem claim_schema_creates_missing_tables (env : Env) (s : SyncState)
    (tables : Option (List String)) (name : String) (td : TableDesc)
    (hcons : s.target.meta = catalogOf s.target.db)
    (hwf : ∀ p ∈ s.source.meta, p.2.name = p.1)
    (hnd : ((applyFilter tables s.source.meta).map Prod.fst).Nodup)
    (hok : ∀ p ∈ applyFilter tables s.source.meta,
      (s.target.meta.lookup p.1).isNone → env.createFails p.2.name = false)
    (hmem : (name, td) ∈ applyFilter tables s.source.meta)
    (habs : s.target.meta.lookup name = none) :
    (sync_schema env s tables).1 = true ∧
    ((sync_schema env s tables).2).target.meta.lookup name = some td ∧
    td = { name := td.name, columns := td.columns.map copyColumn } := by
  rcases hcm : createMissing env (applyFilter tables s.source.meta) s.target.meta
      s.target.db with ⟨db1, e⟩
  have he : e = none := by
    have h0 := @createMissing_ok_of env s.target.meta
      (applyFilter tables s.source.meta) s.target.db hok
    rw [hcm] at h0
    exact h0
  subst he
  have h1 := sync_schema_run_none hcm
  have habsdb : lookupTable s.target.db name = none := by
    have h2 : (catalogOf s.target.db).lookup name = none := by
      rw [← hcons]; exact habs
    rw [catalogOf_lookup] at h2
    rcases hx : lookupTable s.target.db name with _ | t
    · rfl
    · rw [hx] at h2; simp at h2
  have hwff : ∀ p ∈ applyFilter tables s.source.meta, p.2.name = p.1 :=
    fun p hp => hwf p (mem_applyFilter hp)
  have hcreated := createMissing_creates hwff hnd hmem habs habsdb hcm
  refine ⟨by rw [h1], ?_, ?_⟩
  · rw [h1]
    show (refreshMeta s.target.meta db1).lookup name = some td
    rw [refreshMeta_lookup_of_none habs, catalogOf_lookup, hcreated]
    rfl
  · have hcc : copyColumn = id := rfl
    rw [hcc, List.map_id]

/-- C2 witness: in the fixture, source table `v` is absent from the target
and gets created verbatim. -/
theorem claim_schema_creates_missing_tables_witness :
    (sync_schema envOK sW none).1 = true ∧
    ((sync_schema envOK sW none).2).target.meta.lookup "v" = some tdV ∧
    tdV = { name := tdV.name, columns := tdV.columns.map copyColumn } :=
  claim_schema_creates_missing_tables envOK sW none "v" tdV (by decide)
    (by decide) (by decide) (by decide) (by decide) (by decide)

/-- C6: a failure creating any single missing table makes the whole schema
sync return `false` (one boolean, no partial-success list), with the failing
table's name surfaced as the run's error. -/
theorem claim_schema_failure_aborts (env : Env) (s : SyncState)
    (tables : Option (List String)) (name : String) (td : TableDesc)
    (hmem : (name, td) ∈ applyFilter tables s.source.meta)
    (habs : s.target.meta.lookup name = none)
    (hfail : env.createFails td.name = true) :
    (sync_schema env s tables).1 = false ∧
    ∃ q u, (q, u) ∈ applyFilter tables s.source.meta ∧
      s.target.meta.lookup q = none ∧ env.createFails u.name = true ∧
      schemaError env s tables = some u.name := by
  obtain ⟨q, u, hq1, hq2, hq3, hq4⟩ := @createMissing_fails_of env s.target.meta
    (applyFilter tables s.source.meta) s.target.db
    ⟨(name, td), hmem, habs, hfail⟩
  rcases hcm : createMissing env (applyFilter tables s.source.meta) s.target.meta
      s.target.db with ⟨db1, e⟩
  have he : e = some u.name := by rw [hcm] at hq4; exact hq4
  subst he
  have h1 := sync_schema_run_some hcm
  refine ⟨by rw [h1], q, u, hq1, hq2, hq3, ?_⟩
  have h2 : schemaError env s tables = (createMissing env
      (applyFilter tables s.source.meta) s.target.meta s.target.db).2 := rfl
  rw [h2, hcm]

/-- C6 witness: with a create failure injected on table `v`, schema sync
fails and surfaces `v`. -/
theorem claim_schema_failure_aborts_witness :
    (sync_schema envCF sW none).1 = false ∧
    ∃ q u, (q, u) ∈ applyFilter none sW.source.meta ∧
      sW.target.meta.lookup q = none ∧ envCF.createFails u.name = true ∧
      schemaError envCF sW none = some u.name :=
  claim_schema_failure_aborts envCF sW none "v" tdV (by decide) (by decide)
    (by decide)

/-- C7: `sync_data` forgives exactly the soft conditions — a selected table
missing from the refreshed target catalog is skipped, and a source table
with zero rows is skipped — returning `true` precisely when every selected
table that is present in the target completes without a hard error. -/
theorem claim_data_soft_conditions (env : Env) (s : SyncState)
    (tables : Option (List String)) (truncate_target : Bool)
    (hcons : s.target.meta = catalogOf s.target.db) :
    (sync_data env s tables truncate_target).1 = true ↔
      ∀ p ∈ applyFilter tables s.source.meta, ∀ tt,
        (catalogOf s.target.db).lookup p.1 = some tt →
        tableOk env s.source.db truncate_target p.2 tt = true :=
  sync_data_ok_iff_aux hcons

/-- C7 witness: concretely, with table `v` missing from the target and `u`
empty in the source, the run still succeeds. -/
theorem claim_data_soft_conditions_witness :
    (sync_data envOK sW none false).1 = true ↔
      ∀ p ∈ applyFilter none sW.source.meta, ∀ tt,
        (catalogOf sW.target.db).lookup p.1 = some tt →
        tableOk envOK sW.source.db false p.2 tt = true :=
  claim_data_soft_conditions envOK sW none false (by decide)

/-- C5: with truncate requested, a synced table's final content is exactly
the row set transferred from the source — the pre-existing target rows are
deleted (and committed) before the source rows are written, and none of
them survives — and a truncation failure on that table makes the run
fail. -/
theorem claim_data_truncate_semantics (env : Env) (s : SyncState)
    (tables : Option (List String)) (name : String) (st : TableDesc)
    (t0 : DBTable)
    (hcons : s.target.meta = catalogOf s.target.db)
    (hnd : ((applyFilter tables s.source.meta).map Prod.fst).Nodup)
    (hmem : (name, st) ∈ applyFilter tables s.source.meta)
    (ht0 : lookupTable s.target.db name = some t0) :
    ((sync_data env s tables true).1 = true →
      ∃ srcT, lookupTable s.source.db st.name = some srcT ∧
        lookupTable ((sync_data env s tables true).2).target.db name =
          some ⟨t0.desc, srcT.rows.map
            (fun r => insertRow t0.desc.columns (rowDict st.columns r))⟩) ∧
    (env.truncateFails t0.desc.name = true →
      (sync_data env s tables true).1 = false) := by
  constructor
  · intro hres
    obtain ⟨srcT, hsrc, hchar⟩ := sync_data_char hcons hnd hmem ht0 hres
    refine ⟨srcT, hsrc, ?_⟩
    simpa using hchar
  · intro htf
    rcases hb : (sync_data env s tables true).1 with _ | _
    · rfl
    · exfalso
      have hiff := @sync_data_ok_iff_aux env s tables true hcons
      have hall := hiff.1 hb
      have hlkc : (catalogOf s.target.db).lookup name = some t0.desc := by
        rw [catalogOf_lookup, ht0]
        rfl
      have hok := hall (name, st) hmem t0.desc hlkc
      rw [tableOk] at hok
      rw [htf] at hok
      simp at hok

/-- C5 witness: in the fixture, table `t` has one unrelated pre-existing
target row; after a truncating data sync it holds exactly the transferred
source row set. -/
theorem claim_data_truncate_semantics_witness :
    ((sync_data envOK sW none true).1 = true →
      ∃ srcT, lookupTable sW.source.db tdT.name = some srcT ∧
        lookupTable ((sync_data envOK sW none true).2).target.db "t" =
          some ⟨(⟨tdT, [[some "9"]]⟩ : DBTable).desc, srcT.rows.map
            (fun r => insertRow (⟨tdT, [[some "9"]]⟩ : DBTable).desc.columns
              (rowDict tdT.columns r))⟩) ∧
    (envOK.truncateFails (⟨tdT, [[some "9"]]⟩ : DBTable).desc.name = true →
      (sync_data envOK sW none true).1 = false) :=
  claim_data_truncate_semantics envOK sW none "t" tdT ⟨tdT, [[some "9"]]⟩
    (by decide) (by decide) (by decide) (by decide)

/-- C4 counterexample: without truncate, transferred rows are appended to
whatever the target already holds — in the fixture, source `t` has one row,
the target `t` one unrelated pre-existing row, the run succeeds, and the
final target row count is 2, not the source's 1. -/
theorem claim_data_rowcount_cex :
    (sync_data envOK sW none false).1 = true ∧
    (lookupTable sW.source.db "t").map (fun t => t.rows.length) = some 1 ∧
    (lookupTable ((sync_data envOK sW none false).2).target.db "t").map
      (fun t => t.rows.length) = some 2 := by decide

/-- C4 amended: when truncate is requested or the target table starts with
no rows, after a successful `sync_data` the target table holds exactly one
row per source row (equal counts), each built by addressing the target
columns with the source column names: the value at source position `i` is
stored wherever the target column named like source column `i` sits. -/
theorem claim_data_rowcount_amended (env : Env) (s : SyncState)
    (tables : Option (List String)) (truncate_target : Bool) (name : String)
    (st : TableDesc) (t0 : DBTable)
    (hcons : s.target.meta = catalogOf s.target.db)
    (hnd : ((applyFilter tables s.source.meta).map Prod.fst).Nodup)
    (hmem : (name, st) ∈ applyFilter tables s.source.meta)
    (ht0 : lookupTable s.target.db name = some t0)
    (hstart : truncate_target = true ∨ t0.rows = [])
    (hres : (sync_data env s tables truncate_target).1 = true) :
    ∃ srcT, lookupTable s.source.db st.name = some srcT ∧
      ∃ t1, lookupTable ((sync_data env s tables truncate_target).2).target.db
          name = some t1 ∧
        t1.rows.length = srcT.rows.length ∧
        t1.rows = srcT.rows.map
          (fun r => insertRow t0.desc.columns (rowDict st.columns r)) ∧
        ∀ r ∈ srcT.rows, r.length = st.columns.length →
          (st.columns.map Column.name).Nodup →
          ∀ (i k : Nat) (ci ck : Column), st.columns[i]? = some ci →
            t0.desc.columns[k]? = some ck → ck.name = ci.name →
            (insertRow t0.desc.columns (rowDict st.columns r))[k]? = r[i]? := by
  obtain ⟨srcT, hsrc, hchar⟩ := sync_data_char hcons hnd hmem ht0 hres
  have hb : (bif truncate_target then [] else t0.rows) = [] := by
    rcases hstart with h | h
    · rw [h]
      rfl
    · rcases truncate_target with _ | _
      · rw [cond_false, h]
      · rfl
  rw [hb] at hchar
  simp only [List.nil_append] at hchar
  refine ⟨srcT, hsrc,
    ⟨t0.desc, srcT.rows.map (fun r => insertRow t0.desc.columns (rowDict st.columns r))⟩,
    hchar, by simp, rfl, ?_⟩
  intro r _ hlen hndc i k ci ck hi hk hname
  exact insertRow_addressed hlen hndc hi hk hname

/-- C4 witness: the amended statement holds concretely on the fixture with
truncate requested. -/
theorem claim_data_rowcount_amended_witness :
    ∃ srcT, lookupTable sW.source.db tdT.name = some srcT ∧
      ∃ t1, lookupTable ((sync_data envOK sW none true).2).target.db
          "t" = some t1 ∧
        t1.rows.length = srcT.rows.length ∧
        t1.rows = srcT.rows.map (fun r =>
          insertRow (⟨tdT, [[some "9"]]⟩ : DBTable).desc.columns
            (rowDict tdT.columns r)) ∧
        ∀ r ∈ srcT.rows, r.length = tdT.columns.length →
          (tdT.columns.map Column.name).Nodup →
          ∀ (i k : Nat) (ci ck : Column), tdT.columns[i]? = some ci →
            (⟨tdT, [[some "9"]]⟩ : DBTable).desc.columns[k]? = some ck →
            ck.name = ci.name →
            (insertRow (⟨tdT, [[some "9"]]⟩ : DBTable).desc.columns
              (rowDict tdT.columns r))[k]? = r[i]? :=
  claim_data_rowcount_amended envOK sW none true "t" tdT ⟨tdT, [[some "9"]]⟩
    (by decide) (by decide) (by decide) (by decide) (Or.inl rfl) (by decide)

/-- C8 counterexample: a refresh does not replace the snapshot wholesale:
with a stale snapshot entry (`ghost`) no longer present in the target
database, the refresh at the start of `sync_data` keeps the stale entry, so
the refreshed snapshot differs from the database's fresh catalog. -/
theorem claim_refresh_whole_cex :
    ((sync_data envOK sGhost none false).2).target.meta ≠
      catalogOf ((sync_data envOK sGhost none false).2).target.db := by decide

/-- C8 amended: a refresh keeps every existing snapshot entry unchanged and
appends exactly the database tables whose names the snapshot lacks: the
result is precisely the old snapshot followed by the database catalog
restricted to the names the snapshot misses — so, in particular, every
database table the snapshot lacked is present after the refresh — and only
from a snapshot consistent with the database does a refresh coincide with
whole-snapshot replacement, returning the database's full catalog. -/
theorem claim_refresh_amended (meta : Catalog) (db : DB) :
    refreshMeta meta db =
      meta ++ (catalogOf db).filter (fun p => (meta.lookup p.1).isNone) ∧
    (∀ p ∈ catalogOf db, meta.lookup p.1 = none → p ∈ refreshMeta meta db) ∧
    refreshMeta (catalogOf db) db = catalogOf db := by
  refine ⟨rfl, ?_, refreshMeta_consistent db⟩
  intro p hp h
  rw [refreshMeta]
  refine List.mem_append.2 (Or.inr ?_)
  exact List.mem_filter.2 ⟨hp, by simp [h]⟩
